import Mathlib

/-!
Verification development for the tldr-backend email workspace.

The definitions below are shallow embeddings of the TypeScript source:
  - `src/modules/mailbox/providers/email-sync.service.ts` (sync engine,
    retry queue, label reconciliation),
  - `src/modules/mailbox/email.service.ts` (message update, soft delete,
    unread counter, fuzzy/semantic search predicates, move-to-column),
  - the Kanban column service (create/update/delete/reorder/seed).

Pure fragments of the source become Lean functions; repository writes
become explicit state passing; thrown exceptions become `Except`.
All definitions come first; the theorems about them follow.
-/

namespace TldrBackend

/-- Helper for `dedupFirst`: walks the list keeping the set of elements
already emitted. -/
def dedupFirstAux {α : Type} [DecidableEq α] (seen : List α) : List α → List α
  | [] => []
  | x :: xs =>
    if x ∈ seen then dedupFirstAux seen xs else x :: dedupFirstAux (x :: seen) xs

/-- Models the JavaScript idiom `[...new Set(xs)]`: removes duplicates,
keeping the first occurrence of each element in order. -/
def dedupFirst {α : Type} [DecidableEq α] (l : List α) : List α :=
  dedupFirstAux [] l

/-- Spec-side reading of "deduplicated preserving first-occurrence order":
scan left to right, appending each element not seen before. -/
def specDedupAppend {α : Type} [DecidableEq α] (acc : List α) (x : α) : List α :=
  if x ∈ acc then acc else acc ++ [x]

/-- Spec-side deduplication, written independently of `dedupFirst`. -/
def specDedup {α : Type} [DecidableEq α] (l : List α) : List α :=
  l.foldl specDedupAppend []

/-- The rows of the `emails` table that the claims touch, mirroring the
`Email` entity (the entity has no column-association field). -/
structure EmailRec where
  id : Nat
  mailboxId : Nat
  gmailMessageId : String
  subject : String
  labels : List String
  isRead : Bool
  isStarred : Bool
  isPinned : Bool
  taskStatus : Nat
  isSnoozed : Bool
  snoozedUntil : Option Nat
  hasEmbedding : Bool
  deleted : Bool
  deriving DecidableEq, Repr

/-- One `labelsModified` entry of the provider history diff. -/
structure LabelChange where
  messageId : String
  labelsAdded : List String
  labelsRemoved : List String
  deriving DecidableEq, Repr

/-- The label-list computation shared by `incrementalSync` and
`moveEmailToColumn`:
`[...new Set([...current.filter(l => !removed.includes(l)), ...added])]`. -/
def updatedLabelList (current removed added : List String) : List String :=
  dedupFirst (current.filter (fun l => ¬ removed.contains l) ++ added)

/-- `findOne({ where: { mailboxId, gmailMessageId } })` over non-deleted rows. -/
def findByProviderId (emails : List EmailRec) (mailboxId : Nat) (messageId : String) :
    Option EmailRec :=
  emails.find? (fun e =>
    e.mailboxId == mailboxId && e.gmailMessageId == messageId && !e.deleted)

/-- The `labelsModified` handler of `incrementalSync` (email-sync.service.ts,
lines 301-322): look the message up by (mailboxId, gmailMessageId); if found,
replace its labels with the filtered-then-appended deduplicated list and
recompute `isRead` and `isStarred` from the new list. -/
def labelsModifiedStep (emails : List EmailRec) (mailboxId : Nat) (lc : LabelChange) :
    List EmailRec :=
  match findByProviderId emails mailboxId lc.messageId with
  | none => emails
  | some e =>
    let ul := updatedLabelList e.labels lc.labelsRemoved lc.labelsAdded
    emails.map (fun x =>
      if x.id == e.id then
        { x with labels := ul
                 isRead := !ul.contains "UNREAD"
                 isStarred := ul.contains "STARRED" }
      else x)

/-- A row of the `column_configs` table (Kanban column). -/
structure ColumnRec where
  id : Nat
  userId : Nat
  title : String
  orderIndex : Nat
  gmailLabelId : Option String
  color : String
  isDefault : Bool
  deriving DecidableEq, Repr

/-- Observable effects of `moveEmailToColumn`, in execution order: the Gmail
`modifyMessageLabels` call and the local repository update (which writes
exactly the fields `labels`, `isRead`, `isStarred`). -/
inductive MoveEffect where
  | providerCall (addLabelIds removeLabelIds : List String)
  | localWrite (emailId : Nat) (labels : List String) (isRead isStarred : Bool)
  deriving DecidableEq, Repr

/-- `moveEmailToColumn` (email.service.ts, lines 962-1045) after the ownership
lookups: compute the label delta from the target column and the
`archiveFromInbox` flag; when the delta is non-empty call the provider and,
only if that call succeeds, update the local row's `labels`, `isStarred`,
`isRead`; a provider failure rethrows and writes nothing. `providerOk` is the
outcome of the Gmail call; the effect list records what was executed, in
order. -/
def moveEmailToColumn (email : EmailRec) (column : ColumnRec)
    (archiveFromInbox : Bool) (providerOk : Bool) :
    Except String EmailRec × List MoveEffect :=
  let addLabelIds : List String :=
    match column.gmailLabelId with
    | some l => [l]
    | none => []
  let removeLabelIds : List String := if archiveFromInbox then ["INBOX"] else []
  if addLabelIds.length > 0 || removeLabelIds.length > 0 then
    if providerOk then
      let ul := updatedLabelList email.labels removeLabelIds addLabelIds
      (.ok { email with
               labels := ul
               isStarred := ul.contains "STARRED"
               isRead := !ul.contains "UNREAD" },
       [.providerCall addLabelIds removeLabelIds,
        .localWrite email.id ul (!ul.contains "UNREAD") (ul.contains "STARRED")])
    else
      (.error "Failed to synchronize with Gmail",
       [.providerCall addLabelIds removeLabelIds])
  else
    (.ok email, [])

/-- The column of the spec's move-with-archive scenario:
`{title:"Done", labelToken:null, isDefault:false}`. -/
def scenarioDoneColumn : ColumnRec :=
  { id := 10
    userId := 7
    title := "Done"
    orderIndex := 5
    gmailLabelId := none
    color := "#10B981"
    isDefault := false }

/-- Message M1 of the spec's incremental-label-change scenario. -/
def scenarioM1 : EmailRec :=
  { id := 1
    mailboxId := 1
    gmailMessageId := "M1"
    subject := "50% off"
    labels := ["INBOX", "UNREAD", "CATEGORY_PROMOTIONS"]
    isRead := false
    isStarred := false
    isPinned := false
    taskStatus := 0
    isSnoozed := false
    snoozedUntil := none
    hasEmbedding := false
    deleted := false }

/-- The history entry of the spec's incremental-label-change scenario:
`{M1, added:["STARRED"], removed:["UNREAD"]}`. -/
def scenarioChange : LabelChange :=
  { messageId := "M1"
    labelsAdded := ["STARRED"]
    labelsRemoved := ["UNREAD"] }

/-- A row of the `mailboxes` table (the fields the claims touch). -/
structure MailboxRec where
  id : Nat
  userId : Nat
  unreadCount : Nat
  totalEmails : Nat
  deleted : Bool
  deriving DecidableEq, Repr

/-- The store as seen by EmailService: the emails and mailboxes tables. -/
structure StoreState where
  emails : List EmailRec
  mailboxes : List MailboxRec
  deriving DecidableEq, Repr

/-- `getUserMailboxIds` (email.service.ts, lines 222-228): ids of the caller's
non-deleted mailboxes. -/
def getUserMailboxIds (st : StoreState) (userId : Nat) : List Nat :=
  (st.mailboxes.filter (fun m => m.userId == userId && !m.deleted)).map MailboxRec.id

/-- `findOne` (email.service.ts, lines 157-170): fetch the non-deleted email by
id and reject it (NotFound) unless its mailbox is among the caller's. -/
def findOneOwned (st : StoreState) (userId emailId : Nat) : Option EmailRec :=
  match st.emails.find? (fun e => e.id == emailId && !e.deleted) with
  | none => none
  | some e =>
    if (getUserMailboxIds st userId).contains e.mailboxId then some e else none

/-- Count of a mailbox's non-deleted unread emails (the `count` query of
`updateMailboxUnreadCount`). -/
def countUnread (emails : List EmailRec) (mailboxId : Nat) : Nat :=
  (emails.filter (fun e => e.mailboxId == mailboxId && !e.isRead && !e.deleted)).length

/-- Count of a mailbox's non-deleted emails. -/
def countNonDeleted (emails : List EmailRec) (mailboxId : Nat) : Nat :=
  (emails.filter (fun e => e.mailboxId == mailboxId && !e.deleted)).length

/-- `updateMailboxUnreadCount` (email.service.ts, lines 230-236): recount the
mailbox's non-deleted unread emails and write `unreadCount` — and only
`unreadCount`; this service-level helper does not touch `totalEmails`. -/
def updateMailboxUnreadCount (st : StoreState) (mailboxId : Nat) : StoreState :=
  { st with
      mailboxes := st.mailboxes.map (fun m =>
        if m.id == mailboxId then
          { m with unreadCount := countUnread st.emails mailboxId }
        else m) }

/-- `softDelete` (email.service.ts, lines 215-220): ownership check, soft
delete the row, then `updateMailboxUnreadCount`. -/
def softDeleteEmail (st : StoreState) (userId emailId : Nat) :
    Except String StoreState :=
  match findOneOwned st userId emailId with
  | none => .error "NotFound"
  | some e =>
    let st₂ : StoreState :=
      { st with
          emails := st.emails.map (fun x =>
            if x.id == emailId then { x with deleted := true } else x) }
    .ok (updateMailboxUnreadCount st₂ e.mailboxId)

/-- The PATCH body of `/emails/:id`. `none` = field absent; for
`snoozedUntil`, `some none` models an explicit JSON `null`. -/
structure UpdateEmailDto where
  isRead : Option Bool := none
  isStarred : Option Bool := none
  isPinned : Option Bool := none
  taskStatus : Option Nat := none
  snoozedUntil : Option (Option Nat) := none
  deriving DecidableEq, Repr

/-- The field-by-field mutation of `update` (email.service.ts, lines 179-202):
each supplied field overwrites the entity; a supplied `snoozedUntil` of `null`
clears `isSnoozed` and `snoozedUntil`, any other supplied value sets
`isSnoozed = true` and stores the value — no comparison with the clock. -/
def applyUpdateDto (e : EmailRec) (dto : UpdateEmailDto) : EmailRec :=
  let e1 := match dto.isRead with
    | some b => { e with isRead := b }
    | none => e
  let e2 := match dto.isStarred with
    | some b => { e1 with isStarred := b }
    | none => e1
  let e3 := match dto.isPinned with
    | some b => { e2 with isPinned := b }
    | none => e2
  let e4 := match dto.taskStatus with
    | some t => { e3 with taskStatus := t }
    | none => e3
  match dto.snoozedUntil with
  | some none => { e4 with isSnoozed := false, snoozedUntil := none }
  | some (some t) => { e4 with isSnoozed := true, snoozedUntil := some t }
  | none => e4

/-- `update` (email.service.ts, lines 172-213): ownership check, apply the
DTO, save, and recount the mailbox's unread emails exactly when the DTO
carried `isRead`. -/
def updateEmail (st : StoreState) (userId emailId : Nat) (dto : UpdateEmailDto) :
    Except String StoreState :=
  match findOneOwned st userId emailId with
  | none => .error "NotFound"
  | some e =>
    let e₂ := applyUpdateDto e dto
    let st₂ : StoreState :=
      { st with
          emails := st.emails.map (fun x => if x.id == emailId then e₂ else x) }
    .ok (if dto.isRead.isSome then updateMailboxUnreadCount st₂ e.mailboxId else st₂)

/-- The spec's I2 invariant at a given instant, as a decidable check:
`isSnoozed` agrees with "`snoozedUntil` is set and lies in the future". -/
def snoozeFlagMatchesClock (e : EmailRec) (now : Nat) : Bool :=
  e.isSnoozed ==
    (match e.snoozedUntil with
     | some t => decide (now < t)
     | none => false)

/-- An unread email in mailbox 1 (owned by user 7). -/
def c5Email1 : EmailRec :=
  { id := 1
    mailboxId := 1
    gmailMessageId := "g1"
    subject := "first"
    labels := ["INBOX", "UNREAD"]
    isRead := false
    isStarred := false
    isPinned := false
    taskStatus := 0
    isSnoozed := false
    snoozedUntil := none
    hasEmbedding := false
    deleted := false }

/-- A read email in mailbox 1. -/
def c5Email2 : EmailRec :=
  { id := 2
    mailboxId := 1
    gmailMessageId := "g2"
    subject := "second"
    labels := ["INBOX"]
    isRead := true
    isStarred := false
    isPinned := false
    taskStatus := 0
    isSnoozed := false
    snoozedUntil := none
    hasEmbedding := false
    deleted := false }

/-- Mailbox 1 of user 7 with counters consistent with its two emails. -/
def c5Mailbox : MailboxRec :=
  { id := 1, userId := 7, unreadCount := 1, totalEmails := 2, deleted := false }

/-- A store with one mailbox and two emails, counters initially consistent. -/
def c5State : StoreState :=
  { emails := [c5Email1, c5Email2], mailboxes := [c5Mailbox] }

/-- Extracts the success state of a store operation (used to name the
post-state of the concrete runs below). -/
def resultState (x : Except String StoreState) (dflt : StoreState) : StoreState :=
  match x with
  | .ok s => s
  | .error _ => dflt

/-- The store after soft-deleting email 1 of `c5State`. -/
def c5After : StoreState := resultState (softDeleteEmail c5State 7 1) c5State

/-- A PATCH body that snoozes until instant 50. -/
def c6Dto : UpdateEmailDto := { snoozedUntil := some (some 50) }

/-- The store after applying `c6Dto` to email 1 of `c5State`. -/
def c6After : StoreState := resultState (updateEmail c5State 7 1 c6Dto) c5State

/-- A search result row as the fuzzy query returns it: the email id together
with the combined `relevance` score computed by the SELECT list. -/
structure ScoredRow where
  id : Nat
  relevance : ℚ
  deriving DecidableEq

/-- Non-increasing relevance along the output list. -/
def relevanceSortedDesc (l : List ScoredRow) : Prop :=
  l.Chain' (fun a b => b.relevance ≤ a.relevance)

/-- What the fuzzy query's `ORDER BY relevance DESC` (email.service.ts,
lines 645-648) guarantees about an output: it is a permutation of the
qualifying rows, sorted by relevance descending — the clause names no further
sort key, so nothing more is promised. -/
def fuzzyOrderAdmissible (rows out : List ScoredRow) : Prop :=
  rows.Perm out ∧ relevanceSortedDesc out

/-- The ordering the claim asserts: relevance descending with ties broken by
id ascending. -/
def specOrderedWithIdTiebreak (l : List ScoredRow) : Prop :=
  l.Chain' (fun a b =>
    b.relevance < a.relevance ∨ (b.relevance = a.relevance ∧ a.id < b.id))

/-- Two rows with equal relevance scores (ids 1 and 2). -/
def tieRowA : ScoredRow := { id := 1, relevance := 1 }

/-- Second of the two equal-relevance rows. -/
def tieRowB : ScoredRow := { id := 2, relevance := 1 }

/-- The WHERE clause of the fuzzy search query (email.service.ts,
lines 597-643): base predicate over the caller's mailbox ids and non-deleted
rows, the mailbox filter added only when the caller owns it, and the
similarity/ILIKE/tsquery disjunction abstracted as `matchCond`. -/
def fuzzyWherePredicate (uids : List Nat) (mbFilter : Option Nat)
    (matchCond : EmailRec → Bool) (e : EmailRec) : Bool :=
  uids.contains e.mailboxId && !e.deleted &&
    (match mbFilter with
     | some m => if uids.contains m then e.mailboxId == m else true
     | none => true) &&
    matchCond e

/-- The guard `!q.trim()` of both search entry points: true when the query
contains only whitespace. -/
def isBlankQuery (q : String) : Bool :=
  q.toList.all (fun c => c == ' ' || c == '\t' || c == '\n' || c == '\r')

/-- The rows the fuzzy search query returns (before scoring and pagination):
empty when the caller owns no mailbox or the query is blank, otherwise the
emails satisfying the WHERE clause. -/
def fuzzySearchRows (st : StoreState) (userId : Nat) (q : String)
    (mbFilter : Option Nat) (matchCond : EmailRec → Bool) : List EmailRec :=
  if (getUserMailboxIds st userId).isEmpty || isBlankQuery q then []
  else st.emails.filter
    (fuzzyWherePredicate (getUserMailboxIds st userId) mbFilter matchCond)

/-- The WHERE clause of the semantic search query (email.service.ts,
lines 808-830): base predicate plus non-null embedding, the mailbox filter
added whenever supplied (owned or not), and the cosine-similarity threshold
abstracted as `simCond`. -/
def semanticWherePredicate (uids : List Nat) (mbFilter : Option Nat)
    (simCond : EmailRec → Bool) (e : EmailRec) : Bool :=
  uids.contains e.mailboxId && !e.deleted && e.hasEmbedding &&
    (match mbFilter with
     | some m => e.mailboxId == m
     | none => true) &&
    simCond e

/-- The rows the semantic search query returns (before pagination). -/
def semanticSearchRows (st : StoreState) (userId : Nat) (q : String)
    (mbFilter : Option Nat) (simCond : EmailRec → Bool) : List EmailRec :=
  if (getUserMailboxIds st userId).isEmpty || isBlankQuery q then []
  else st.emails.filter
    (semanticWherePredicate (getUserMailboxIds st userId) mbFilter simCond)

/-- `MailboxSyncStatus` of the entities module. -/
inductive SyncStatus where
  | pending
  | syncing
  | synced
  | error
  deriving DecidableEq, Repr

/-- The mailbox fields the sync engine reads and writes. -/
structure MailboxSync where
  id : Nat
  isActive : Bool
  syncStatus : SyncStatus
  lastSyncError : Option String
  historyId : Option String
  updatedAt : Nat
  deriving DecidableEq, Repr

/-- A `SyncJob` entry of the in-memory retry map (email-sync.service.ts,
lines 20-25). -/
structure SyncJob where
  mailboxId : Nat
  retryCount : Nat
  lastError : String
  scheduledAt : Nat
  deriving DecidableEq, Repr

/-- `MAX_RETRIES` (email-sync.service.ts, line 27). -/
def MAX_RETRIES : Nat := 3

/-- `RETRY_DELAYS` in milliseconds (email-sync.service.ts, line 28). -/
def RETRY_DELAYS : List Nat := [60000, 300000, 900000]

/-- The sync engine's state: the `isSyncing` guard, the shutdown flag, the
retry map (as an insertion-ordered association list keyed by mailboxId), and
the mailbox rows. -/
structure EngineState where
  isSyncing : Bool
  isShuttingDown : Bool
  retryQueue : List SyncJob
  mailboxes : List MailboxSync
  deriving DecidableEq, Repr

/-- `mailboxRepository.findOne({ where: { id } })`. -/
def findMailbox (s : EngineState) (mid : Nat) : Option MailboxSync :=
  s.mailboxes.find? (fun m => m.id == mid)

/-- `mailboxRepository.update(id, {...})`. -/
def updateMailbox (s : EngineState) (mid : Nat) (f : MailboxSync → MailboxSync) :
    EngineState :=
  { s with mailboxes := s.mailboxes.map (fun m => if m.id == mid then f m else m) }

/-- `retryQueue.get(mailboxId)`. -/
def queueGet (q : List SyncJob) (mid : Nat) : Option SyncJob :=
  q.find? (fun j => j.mailboxId == mid)

/-- `retryQueue.set(mailboxId, job)`: replace in place when the key exists
(JS Map keeps insertion order), append otherwise. -/
def queueSet (q : List SyncJob) (job : SyncJob) : List SyncJob :=
  if (q.find? (fun j => j.mailboxId == job.mailboxId)).isSome then
    q.map (fun j => if j.mailboxId == job.mailboxId then job else j)
  else q ++ [job]

/-- `retryQueue.delete(mailboxId)`. -/
def queueDelete (q : List SyncJob) (mid : Nat) : List SyncJob :=
  q.filter (fun j => j.mailboxId != mid)

/-- `handleSyncError` (email-sync.service.ts, lines 510-548): read the current
queue entry; the attempt counter is the entry's counter plus one, or 0 when no
entry exists. Below `MAX_RETRIES`, re-queue with delay `RETRY_DELAYS[count]`
(falling back to the last delay) and mark the mailbox Error with a
"(retry k/3 scheduled)" suffix; otherwise drop the entry and mark Error with
the "(max retries exceeded)" suffix. -/
def handleSyncError (s : EngineState) (mid : Nat) (errMsg : String) (now : Nat) :
    EngineState :=
  let retryCount : Nat :=
    match queueGet s.retryQueue mid with
    | some j => j.retryCount + 1
    | none => 0
  if retryCount < MAX_RETRIES then
    let delay := RETRY_DELAYS.getD retryCount (RETRY_DELAYS.getLastD 0)
    updateMailbox
      { s with
          retryQueue := queueSet s.retryQueue
            { mailboxId := mid
              retryCount := retryCount
              lastError := errMsg
              scheduledAt := now + delay } }
      mid
      (fun m =>
        { m with
            syncStatus := .error
            lastSyncError := some (errMsg ++ " (retry " ++ toString (retryCount + 1) ++
              "/" ++ toString MAX_RETRIES ++ " scheduled)") })
  else
    updateMailbox
      { s with retryQueue := queueDelete s.retryQueue mid }
      mid
      (fun m =>
        { m with
            syncStatus := .error
            lastSyncError := some (errMsg ++ " (max retries exceeded)") })

/-- Outcome of one provider round trip during a sync: the cursor stored on
success, or a transient failure message. -/
inductive SyncOutcome where
  | success (newHistoryId : String)
  | failure (msg : String)
  deriving DecidableEq, Repr

/-- Net effect of `fullSync` (email-sync.service.ts, lines 162-244) on the
engine fields the claims concern: throws if the mailbox is missing; sets the
guard and marks Syncing, imports, and on success stores the profile cursor and
marks Synced; a failure goes through `handleSyncError`; the `finally` block
clears the guard on every path. The function never reads `isSyncing` before
starting. -/
def fullSyncStep (s : EngineState) (mid : Nat) (outcome : SyncOutcome) (now : Nat) :
    Except String EngineState :=
  match findMailbox s mid with
  | none => .error ("Mailbox " ++ toString mid ++ " not found")
  | some _ =>
    match outcome with
    | .success cursor =>
      .ok { (updateMailbox s mid (fun m =>
              { m with
                  syncStatus := .synced
                  lastSyncError := none
                  historyId := some cursor
                  updatedAt := now })) with
            isSyncing := false }
    | .failure msg =>
      .ok { (handleSyncError
              (updateMailbox s mid (fun m =>
                { m with syncStatus := .syncing, updatedAt := now }))
              mid msg now) with
            isSyncing := false }

/-- Net effect of `incrementalSync` (email-sync.service.ts, lines 246-360):
throws if the mailbox is missing; delegates to `fullSync` when there is no
history cursor; otherwise marks Syncing and applies the changes — on success
marks Synced, stores the latest cursor and deletes the retry entry; a
transient failure goes through `handleSyncError`; `finally` clears the guard.
The function never reads `isSyncing` before starting. -/
def incrementalSyncStep (s : EngineState) (mid : Nat) (outcome : SyncOutcome)
    (now : Nat) : Except String EngineState :=
  match findMailbox s mid with
  | none => .error ("Mailbox " ++ toString mid ++ " not found")
  | some mb =>
    match mb.historyId with
    | none => fullSyncStep s mid outcome now
    | some _ =>
      match outcome with
      | .success cursor =>
        .ok { (updateMailbox
                { s with retryQueue := queueDelete s.retryQueue mid } mid
                (fun m =>
                  { m with
                      syncStatus := .synced
                      lastSyncError := none
                      historyId := some cursor
                      updatedAt := now })) with
              isSyncing := false }
      | .failure msg =>
        .ok { (handleSyncError
                (updateMailbox s mid (fun m =>
                  { m with syncStatus := .syncing, updatedAt := now }))
                mid msg now) with
              isSyncing := false }

/-- `processRetryQueue` (email-sync.service.ts, lines 124-137): for every
queued job whose scheduled time has passed, delete the entry and re-run
`incrementalSync`; note the deletion happens before the sync, and neither the
`isSyncing` guard nor the shutdown flag is consulted. `outcomeFor` supplies
each re-run's provider outcome. -/
def processRetryQueueStep (s : EngineState) (now : Nat)
    (outcomeFor : Nat → SyncOutcome) : EngineState :=
  (s.retryQueue.filter (fun j => j.scheduledAt ≤ now)).foldl
    (fun st j =>
      let st₂ := { st with retryQueue := queueDelete st.retryQueue j.mailboxId }
      match incrementalSyncStep st₂ j.mailboxId (outcomeFor j.mailboxId) now with
      | .ok st₃ => st₃
      | .error _ => st₂)
    s

/-- `scheduledIncrementalSync` (email-sync.service.ts, lines 74-122): skip
when `isSyncing` or shutting down; otherwise reset stuck mailboxes (Syncing
with `updatedAt` older than five minutes) to Synced, then run
`incrementalSync` over every active mailbox in {Synced, Error, Pending} plus
the reset ones. -/
def scheduledIncrementalSyncStep (s : EngineState) (now : Nat)
    (outcomeFor : Nat → SyncOutcome) : EngineState :=
  if s.isSyncing || s.isShuttingDown then s
  else
    let ready := s.mailboxes.filter (fun m =>
      m.isActive &&
        (m.syncStatus == .synced || m.syncStatus == .error ||
          m.syncStatus == .pending))
    let stuck := s.mailboxes.filter (fun m =>
      m.isActive && m.syncStatus == .syncing && m.updatedAt < now - 5 * 60 * 1000)
    let s₂ := stuck.foldl
      (fun st m => updateMailbox st m.id (fun x => { x with syncStatus := .synced }))
      s
    (ready ++ stuck).foldl
      (fun st m =>
        match incrementalSyncStep st m.id (outcomeFor m.id) now with
        | .ok st₃ => st₃
        | .error _ => st)
      s₂

/-- `syncOnDemand` (email-sync.service.ts, lines 362-381): throws if the
mailbox is missing; returns without syncing when the mailbox row itself is in
Syncing (the per-row status, not the engine guard); otherwise runs incremental
or full sync. -/
def syncOnDemandStep (s : EngineState) (mid : Nat) (outcome : SyncOutcome)
    (now : Nat) : Except String EngineState :=
  match findMailbox s mid with
  | none => .error ("Mailbox " ++ toString mid ++ " not found")
  | some mb =>
    if mb.syncStatus == .syncing then .ok s
    else
      match mb.historyId with
      | some _ => incrementalSyncStep s mid outcome now
      | none => fullSyncStep s mid outcome now

/-- Extracts the success state of an engine operation. -/
def resultEngine (x : Except String EngineState) (dflt : EngineState) : EngineState :=
  match x with
  | .ok s => s
  | .error _ => dflt

/-- An active, synced mailbox with a history cursor. -/
def engineMailbox1 : MailboxSync :=
  { id := 1
    isActive := true
    syncStatus := .synced
    lastSyncError := none
    historyId := some "H1"
    updatedAt := 0 }

/-- Engine at rest: guard clear, empty retry queue, one healthy mailbox. -/
def engineState0 : EngineState :=
  { isSyncing := false
    isShuttingDown := false
    retryQueue := []
    mailboxes := [engineMailbox1] }

/-- After the first transient failure (at t = 0). -/
def c3RunA1 : EngineState := handleSyncError engineState0 1 "fail" 0

/-- After a second consecutive failure with the queue entry intact
(at t = 30000, e.g. driven by the 30-second scheduled tick). -/
def c3RunA2 : EngineState := handleSyncError c3RunA1 1 "fail" 30000

/-- After a third consecutive failure with the entry intact (t = 60000). -/
def c3RunA3 : EngineState := handleSyncError c3RunA2 1 "fail" 60000

/-- After a fourth consecutive failure with the entry intact (t = 90000). -/
def c3RunA4 : EngineState := handleSyncError c3RunA3 1 "fail" 90000

/-- After the first failure, the retry tick fires at the scheduled time
t = 60000 and the re-run fails again. -/
def c3RunB2 : EngineState :=
  processRetryQueueStep c3RunA1 60000 (fun _ => .failure "fail")

/-- The engine with the in-flight guard set. -/
def c4Guarded : EngineState := { engineState0 with isSyncing := true }

/-- Incremental sync invoked while the guard is set (succeeding with cursor
H2). -/
def c4IncResult : EngineState :=
  resultEngine (incrementalSyncStep c4Guarded 1 (.success "H2") 100) c4Guarded

/-- Full sync invoked while the guard is set. -/
def c4FullResult : EngineState :=
  resultEngine (fullSyncStep c4Guarded 1 (.success "H3") 100) c4Guarded

/-- On-demand sync invoked while the guard is set. -/
def c4DemandResult : EngineState :=
  resultEngine (syncOnDemandStep c4Guarded 1 (.success "H4") 100) c4Guarded

/-- The POST body of `/kanban/columns` (`CreateColumnDto`): title required,
`orderIndex` optional (validated `≥ 0`), label and color optional. -/
structure CreateColumnDto where
  title : String
  orderIndex : Option Nat := none
  gmailLabelId : Option String := none
  color : Option String := none
  deriving DecidableEq, Repr

/-- The PATCH body of `/kanban/columns/:id` (`UpdateColumnDto`). -/
structure UpdateColumnDto where
  title : Option String := none
  orderIndex : Option Nat := none
  gmailLabelId : Option String := none
  color : Option String := none
  deriving DecidableEq, Repr

/-- `findColumnById` restricted to one user's columns. -/
def findColumnById (cols : List ColumnRec) (cid : Nat) : Option ColumnRec :=
  cols.find? (fun c => c.id == cid)

/-- `createColumn` (kanban service): reject a duplicate title; when
`orderIndex` is omitted use `MAX(orderIndex) + 1` (0 on an empty set, since
SQL `MAX` is null there and the code computes `(max ?? -1) + 1`); otherwise
use the supplied index unchanged — no other column is shifted. `newId` is the
id the store generates for the inserted row. -/
def createColumn (cols : List ColumnRec) (userId : Nat) (dto : CreateColumnDto)
    (newId : Nat) : Except String (List ColumnRec) :=
  if cols.any (fun c => c.title == dto.title) then
    .error "Conflict"
  else
    let orderIndex :=
      match dto.orderIndex with
      | some i => i
      | none =>
        match cols with
        | [] => 0
        | _ => (cols.map ColumnRec.orderIndex).foldl Nat.max 0 + 1
    .ok (cols ++
      [{ id := newId
         userId := userId
         title := dto.title
         orderIndex := orderIndex
         gmailLabelId := dto.gmailLabelId
         color := dto.color.getD "#6B7280"
         isDefault := false }])

/-- `reorderColumns` (mailbox.module.ts, lines 288-318): moving forward
(`newIndex > oldIndex`) shifts columns in the open range (old, new] left by
one; moving backward shifts columns in [new, old) right by one. -/
def reorderColumns (cols : List ColumnRec) (oldIndex newIndex : Nat) :
    List ColumnRec :=
  if oldIndex = newIndex then cols
  else if newIndex > oldIndex then
    cols.map (fun c =>
      if oldIndex < c.orderIndex ∧ c.orderIndex ≤ newIndex then
        { c with orderIndex := c.orderIndex - 1 }
      else c)
  else
    cols.map (fun c =>
      if newIndex ≤ c.orderIndex ∧ c.orderIndex < oldIndex then
        { c with orderIndex := c.orderIndex + 1 }
      else c)

/-- The rename-conflict check of `updateColumn`. -/
def titleConflict (cols : List ColumnRec) (col : ColumnRec)
    (dto : UpdateColumnDto) : Bool :=
  match dto.title with
  | some t => t != col.title && cols.any (fun c => c.title == t)
  | none => false

/-- `updateColumn` (mailbox.module.ts, lines 145-189): look the column up,
enforce title uniqueness on rename, run `reorderColumns` when the supplied
`orderIndex` differs from the current one, then write the updated fields onto
the fetched entity and save it. -/
def updateColumn (cols : List ColumnRec) (cid : Nat) (dto : UpdateColumnDto) :
    Except String (List ColumnRec) :=
  match findColumnById cols cid with
  | none => .error "NotFound"
  | some col =>
    if titleConflict cols col dto then .error "Conflict"
    else
      let cols₂ :=
        match dto.orderIndex with
        | some n =>
          if n ≠ col.orderIndex then reorderColumns cols col.orderIndex n else cols
        | none => cols
      let col₂ : ColumnRec :=
        { col with
            title := dto.title.getD col.title
            orderIndex := dto.orderIndex.getD col.orderIndex
            gmailLabelId :=
              match dto.gmailLabelId with
              | some g => some g
              | none => col.gmailLabelId
            color := dto.color.getD col.color }
      .ok (cols₂.map (fun c => if c.id == cid then col₂ else c))

/-- The `ORDER BY orderIndex ASC` fetch of the remaining columns. -/
def sortByOrderIndex (cols : List ColumnRec) : List ColumnRec :=
  cols.mergeSort (fun a b => a.orderIndex ≤ b.orderIndex)

/-- The re-densify loop of `deleteColumn`: the i-th remaining column (in
orderIndex order) gets orderIndex i. -/
def reassignIndices (cols : List ColumnRec) : List ColumnRec :=
  cols.enum.map (fun p => { p.2 with orderIndex := p.1 })

/-- `deleteColumn` (mailbox.module.ts, lines 194-217): forbidden for default
columns; otherwise remove the row and re-densify the remaining columns in
orderIndex order. -/
def deleteColumn (cols : List ColumnRec) (cid : Nat) :
    Except String (List ColumnRec) :=
  match findColumnById cols cid with
  | none => .error "NotFound"
  | some col =>
    if col.isDefault then .error "Conflict"
    else .ok (reassignIndices (sortByOrderIndex (cols.filter (fun c => c.id != cid))))

/-- The six seeded default columns (mailbox.module.ts, lines 230-279);
`baseId` stands for the store-generated ids. -/
def defaultColumnSeed (userId baseId : Nat) : List ColumnRec :=
  [{ id := baseId, userId := userId, title := "Inbox", orderIndex := 0,
     gmailLabelId := some "INBOX", color := "#3B82F6", isDefault := true },
   { id := baseId + 1, userId := userId, title := "Important", orderIndex := 1,
     gmailLabelId := some "IMPORTANT", color := "#EF4444", isDefault := true },
   { id := baseId + 2, userId := userId, title := "Starred", orderIndex := 2,
     gmailLabelId := some "STARRED", color := "#F59E0B", isDefault := true },
   { id := baseId + 3, userId := userId, title := "To Do", orderIndex := 3,
     gmailLabelId := none, color := "#8B5CF6", isDefault := false },
   { id := baseId + 4, userId := userId, title := "In Progress", orderIndex := 4,
     gmailLabelId := none, color := "#06B6D4", isDefault := false },
   { id := baseId + 5, userId := userId, title := "Done", orderIndex := 5,
     gmailLabelId := none, color := "#10B981", isDefault := false }]

/-- `initializeDefaultColumns` (mailbox.module.ts, lines 222-283): a no-op
when the user already has any column, otherwise insert the six defaults. -/
def initializeDefaultColumns (cols : List ColumnRec) (userId baseId : Nat) :
    List ColumnRec :=
  if cols.length > 0 then cols else defaultColumnSeed userId baseId

/-- The spec's P2 density invariant: the orderIndex multiset of a user's
columns is exactly {0, …, N−1}. -/
def denseIndices (cols : List ColumnRec) : Prop :=
  (cols.map ColumnRec.orderIndex).Perm (List.range cols.length)

/-- The index transformation a gap-preserving reorder applies: the moved
index goes to `new`, the indices strictly between shift by one toward the
vacated slot, everything else stays. -/
def hShift (old new i : Nat) : Nat :=
  if i = old then new
  else if old < i ∧ i ≤ new then i - 1
  else if new ≤ i ∧ i < old then i + 1
  else i

/-- The column-manager states reachable through the operations that preserve
density: seeding, create with `orderIndex` omitted (fresh id), update whose
reorder target is below the column count, and delete. -/
inductive ReachableCols : List ColumnRec → Prop where
  | empty : ReachableCols []
  | seed (s : List ColumnRec) (userId baseId : Nat) :
      ReachableCols s → ReachableCols (initializeDefaultColumns s userId baseId)
  | createAuto (s : List ColumnRec) (userId : Nat) (dto : CreateColumnDto)
      (newId : Nat) (s₂ : List ColumnRec) :
      ReachableCols s → dto.orderIndex = none → (∀ c ∈ s, c.id ≠ newId) →
      createColumn s userId dto newId = .ok s₂ → ReachableCols s₂
  | update (s : List ColumnRec) (cid : Nat) (dto : UpdateColumnDto)
      (s₂ : List ColumnRec) :
      ReachableCols s → (∀ n, dto.orderIndex = some n → n < s.length) →
      updateColumn s cid dto = .ok s₂ → ReachableCols s₂
  | delete (s : List ColumnRec) (cid : Nat) (s₂ : List ColumnRec) :
      ReachableCols s → deleteColumn s cid = .ok s₂ → ReachableCols s₂

/-- Density together with primary-key uniqueness of the column ids (the
strengthened invariant the preservation proof carries). -/
def ColsWF (cols : List ColumnRec) : Prop :=
  denseIndices cols ∧ (cols.map ColumnRec.id).Nodup

/-- A create request carrying an explicit orderIndex of 5. -/
def c7Dto5 : CreateColumnDto := { title := "A", orderIndex := some 5 }

/-- The single column produced by `createColumn [] 7 c7Dto5 1`. -/
def c7Broken : List ColumnRec :=
  [{ id := 1, userId := 7, title := "A", orderIndex := 5,
     gmailLabelId := none, color := "#6B7280", isDefault := false }]

section Theorems

theorem mem_dedupFirstAux {α : Type} [DecidableEq α] :
    ∀ (l seen : List α) (a : α), a ∈ dedupFirstAux seen l ↔ a ∈ l ∧ a ∉ seen
  | [], seen, a => by simp [dedupFirstAux]
  | x :: xs, seen, a => by
    rw [dedupFirstAux]
    by_cases hx : x ∈ seen
    · rw [if_pos hx, mem_dedupFirstAux xs seen a]
      constructor
      · exact fun ⟨h1, h2⟩ => ⟨List.mem_cons_of_mem x h1, h2⟩
      · rintro ⟨h1, h2⟩
        rcases List.mem_cons.mp h1 with rfl | h1
        · exact absurd hx h2
        · exact ⟨h1, h2⟩
    · rw [if_neg hx]
      simp only [List.mem_cons, mem_dedupFirstAux xs (x :: seen) a]
      constructor
      · rintro (rfl | ⟨h1, h2⟩)
        · exact ⟨Or.inl rfl, hx⟩
        · exact ⟨Or.inr h1, fun hs => h2 (Or.inr hs)⟩
      · rintro ⟨rfl | h1, h2⟩
        · exact Or.inl rfl
        · by_cases hax : a = x
          · exact Or.inl hax
          · exact Or.inr ⟨h1, by simp [hax, h2]⟩

theorem nodup_dedupFirstAux {α : Type} [DecidableEq α] :
    ∀ (l seen : List α), (dedupFirstAux seen l).Nodup
  | [], seen => by simp [dedupFirstAux]
  | x :: xs, seen => by
    rw [dedupFirstAux]
    by_cases hx : x ∈ seen
    · rw [if_pos hx]
      exact nodup_dedupFirstAux xs seen
    · rw [if_neg hx]
      refine List.nodup_cons.mpr ⟨?_, nodup_dedupFirstAux xs (x :: seen)⟩
      intro hmem
      have := (mem_dedupFirstAux xs (x :: seen) x).mp hmem
      simp at this

theorem sublist_dedupFirstAux {α : Type} [DecidableEq α] :
    ∀ (l seen : List α), (dedupFirstAux seen l).Sublist l
  | [], _ => by simp [dedupFirstAux]
  | x :: xs, seen => by
    rw [dedupFirstAux]
    by_cases hx : x ∈ seen
    · rw [if_pos hx]
      exact (sublist_dedupFirstAux xs seen).trans (List.sublist_cons_self x xs)
    · rw [if_neg hx]
      exact List.Sublist.cons₂ x (sublist_dedupFirstAux xs (x :: seen))

theorem mem_dedupFirst {α : Type} [DecidableEq α] (l : List α) (a : α) :
    a ∈ dedupFirst l ↔ a ∈ l := by
  unfold dedupFirst
  rw [mem_dedupFirstAux]
  simp

theorem nodup_dedupFirst {α : Type} [DecidableEq α] (l : List α) :
    (dedupFirst l).Nodup :=
  nodup_dedupFirstAux l []

theorem dedupFirst_sublist {α : Type} [DecidableEq α] (l : List α) :
    (dedupFirst l).Sublist l :=
  sublist_dedupFirstAux l []

theorem foldl_specDedupAppend {α : Type} [DecidableEq α] :
    ∀ (l acc seen : List α), (∀ b, b ∈ seen ↔ b ∈ acc) →
      l.foldl specDedupAppend acc = acc ++ dedupFirstAux seen l
  | [], acc, seen, _ => by simp [dedupFirstAux]
  | x :: xs, acc, seen, hset => by
    simp only [List.foldl_cons, dedupFirstAux]
    by_cases hx : x ∈ seen
    · have hxa : x ∈ acc := (hset x).mp hx
      rw [if_pos hx]
      have : specDedupAppend acc x = acc := by simp [specDedupAppend, hxa]
      rw [this, foldl_specDedupAppend xs acc seen hset]
    · have hxa : x ∉ acc := fun h => hx ((hset x).mpr h)
      rw [if_neg hx]
      have hstep : specDedupAppend acc x = acc ++ [x] := by simp [specDedupAppend, hxa]
      rw [hstep,
        foldl_specDedupAppend xs (acc ++ [x]) (x :: seen)
          (fun b => by simp [List.mem_append, hset b, or_comm])]
      simp [List.append_assoc]

theorem specDedup_eq_dedupFirst {α : Type} [DecidableEq α] (l : List α) :
    specDedup l = dedupFirst l := by
  unfold specDedup dedupFirst
  rw [foldl_specDedupAppend l [] [] (fun b => Iff.rfl)]
  simp

theorem mem_updatedLabelList (current removed added : List String) (x : String) :
    x ∈ updatedLabelList current removed added ↔
      (x ∈ current ∧ x ∉ removed) ∨ x ∈ added := by
  unfold updatedLabelList
  rw [mem_dedupFirst]
  simp [List.mem_filter]

/-- C1: for every `labelsModified` entry applied during incremental sync, if a
local message with the entry's (mailboxId, providerMessageId) exists, the
store afterwards holds a row with that message's id whose label list is the
old list minus the removed labels plus the appended added labels, deduplicated
keeping first occurrences, and whose `isRead` / `isStarred` flags are derived
from the new list (`isRead` iff no `UNREAD`, `isStarred` iff `STARRED`). -/
theorem labelsModified_applies_spec_formula
    (emails : List EmailRec) (mailboxId : Nat) (lc : LabelChange) (e : EmailRec)
    (hfind : findByProviderId emails mailboxId lc.messageId = some e) :
    ∃ e₂ ∈ labelsModifiedStep emails mailboxId lc,
      e₂.id = e.id ∧
      e₂.labels =
        specDedup (e.labels.filter (fun l => l ∉ lc.labelsRemoved) ++ lc.labelsAdded) ∧
      (∀ x, x ∈ e₂.labels ↔ (x ∈ e.labels ∧ x ∉ lc.labelsRemoved) ∨ x ∈ lc.labelsAdded) ∧
      e₂.labels.Nodup ∧
      (e₂.isRead = true ↔ "UNREAD" ∉ e₂.labels) ∧
      (e₂.isStarred = true ↔ "STARRED" ∈ e₂.labels) := by
  have he : e ∈ emails := List.mem_of_find?_eq_some hfind
  refine ⟨{ e with
              labels := updatedLabelList e.labels lc.labelsRemoved lc.labelsAdded
              isRead := !(updatedLabelList e.labels lc.labelsRemoved lc.labelsAdded).contains "UNREAD"
              isStarred := (updatedLabelList e.labels lc.labelsRemoved lc.labelsAdded).contains "STARRED" },
          ?_, rfl, ?_, ?_, ?_, ?_, ?_⟩
  · simp only [labelsModifiedStep, hfind]
    refine List.mem_map.mpr ⟨e, he, ?_⟩
    simp
  · show updatedLabelList e.labels lc.labelsRemoved lc.labelsAdded = _
    rw [specDedup_eq_dedupFirst]
    unfold updatedLabelList
    congr 1
    apply congrArg (fun l => l ++ lc.labelsAdded)
    apply List.filter_congr
    intro a _
    simp
  · intro x
    exact mem_updatedLabelList e.labels lc.labelsRemoved lc.labelsAdded x
  · exact nodup_dedupFirst _
  · simp
  · simp

/-- C1 witness: the spec's concrete scenario. History reports
`{M1, added:["STARRED"], removed:["UNREAD"]}` against labels
`["INBOX","UNREAD","CATEGORY_PROMOTIONS"]`; the resulting row has labels
`["INBOX","CATEGORY_PROMOTIONS","STARRED"]`, `isRead = true`,
`isStarred = true`. -/
theorem labelsModified_applies_spec_formula_witness :
    ((labelsModifiedStep [scenarioM1] 1 scenarioChange).map EmailRec.labels =
        [["INBOX", "CATEGORY_PROMOTIONS", "STARRED"]] ∧
      (labelsModifiedStep [scenarioM1] 1 scenarioChange).map EmailRec.isRead = [true] ∧
      (labelsModifiedStep [scenarioM1] 1 scenarioChange).map EmailRec.isStarred = [true]) ∧
    ∃ e₂ ∈ labelsModifiedStep [scenarioM1] 1 scenarioChange,
      e₂.id = scenarioM1.id ∧
      e₂.labels =
        specDedup (scenarioM1.labels.filter (fun l => l ∉ scenarioChange.labelsRemoved) ++
          scenarioChange.labelsAdded) ∧
      (∀ x, x ∈ e₂.labels ↔
        (x ∈ scenarioM1.labels ∧ x ∉ scenarioChange.labelsRemoved) ∨
          x ∈ scenarioChange.labelsAdded) ∧
      e₂.labels.Nodup ∧
      (e₂.isRead = true ↔ "UNREAD" ∉ e₂.labels) ∧
      (e₂.isStarred = true ↔ "STARRED" ∈ e₂.labels) :=
  ⟨by decide,
    labelsModified_applies_spec_formula [scenarioM1] 1 scenarioChange scenarioM1 (by decide)⟩

/-- C2: in `moveEmailToColumn`, when the label delta (add = the column's label
token if present, remove = "INBOX" if archiving) is non-empty, the provider
call is the first effect; on provider failure the operation fails with no
local write (the message state is untouched); only on provider success is the
local row updated to `(old \ remove) ∪ add` with `isRead` and `isStarred`
recomputed, and that write happens after the provider call. -/
theorem moveEmailToColumn_provider_commits_first
    (email : EmailRec) (column : ColumnRec) (archiveFromInbox providerOk : Bool)
    (hdelta : column.gmailLabelId.isSome = true ∨ archiveFromInbox = true) :
    ∃ add remove,
      add = column.gmailLabelId.toList ∧
      remove = (if archiveFromInbox then ["INBOX"] else []) ∧
      (moveEmailToColumn email column archiveFromInbox providerOk).2.head? =
        some (.providerCall add remove) ∧
      (providerOk = false →
        (moveEmailToColumn email column archiveFromInbox providerOk).1 =
            .error "Failed to synchronize with Gmail" ∧
        (moveEmailToColumn email column archiveFromInbox providerOk).2 =
            [.providerCall add remove]) ∧
      (providerOk = true →
        ∃ e₂,
          (moveEmailToColumn email column archiveFromInbox providerOk).1 = .ok e₂ ∧
          (∀ x, x ∈ e₂.labels ↔ (x ∈ email.labels ∧ x ∉ remove) ∨ x ∈ add) ∧
          (e₂.isRead = true ↔ "UNREAD" ∉ e₂.labels) ∧
          (e₂.isStarred = true ↔ "STARRED" ∈ e₂.labels) ∧
          (moveEmailToColumn email column archiveFromInbox providerOk).2 =
            [.providerCall add remove,
             .localWrite email.id e₂.labels e₂.isRead e₂.isStarred]) := by
  refine ⟨column.gmailLabelId.toList, if archiveFromInbox then ["INBOX"] else [],
    rfl, rfl, ?_, ?_, ?_⟩ <;>
    rcases hg : column.gmailLabelId with _ | lbl <;>
      cases harch : archiveFromInbox <;> cases hok : providerOk <;>
      simp_all [moveEmailToColumn, mem_updatedLabelList]

/-- C2 witness: the spec's move-with-archive scenario — column "Done" has no
label token, `archiveFromInbox = true`, so the delta is `remove = ["INBOX"]`;
with a succeeding provider the local labels lose "INBOX". -/
theorem moveEmailToColumn_provider_commits_first_witness :
    ∃ add remove,
      add = scenarioDoneColumn.gmailLabelId.toList ∧
      remove = (if true then ["INBOX"] else []) ∧
      (moveEmailToColumn scenarioM1 scenarioDoneColumn true true).2.head? =
        some (.providerCall add remove) ∧
      (true = false →
        (moveEmailToColumn scenarioM1 scenarioDoneColumn true true).1 =
            .error "Failed to synchronize with Gmail" ∧
        (moveEmailToColumn scenarioM1 scenarioDoneColumn true true).2 =
            [.providerCall add remove]) ∧
      (true = true →
        ∃ e₂,
          (moveEmailToColumn scenarioM1 scenarioDoneColumn true true).1 = .ok e₂ ∧
          (∀ x, x ∈ e₂.labels ↔ (x ∈ scenarioM1.labels ∧ x ∉ remove) ∨ x ∈ add) ∧
          (e₂.isRead = true ↔ "UNREAD" ∉ e₂.labels) ∧
          (e₂.isStarred = true ↔ "STARRED" ∈ e₂.labels) ∧
          (moveEmailToColumn scenarioM1 scenarioDoneColumn true true).2 =
            [.providerCall add remove,
             .localWrite scenarioM1.id e₂.labels e₂.isRead e₂.isStarred]) :=
  moveEmailToColumn_provider_commits_first scenarioM1 scenarioDoneColumn true true
    (Or.inr rfl)

/-- C10: a successful `moveEmailToColumn` leaves every message field other
than `labels`, `isRead`, `isStarred` unchanged (the `Email` entity has no
column-association field, so no `columnId` can be persisted), and when the
target column has no label token and `archiveFromInbox` is false the
operation performs no provider call and no write at all, returning the
message unchanged. -/
theorem moveEmailToColumn_frame
    (email : EmailRec) (column : ColumnRec) (archiveFromInbox providerOk : Bool)
    (e₂ : EmailRec) (effs : List MoveEffect)
    (hrun : moveEmailToColumn email column archiveFromInbox providerOk = (.ok e₂, effs)) :
    e₂.id = email.id ∧
    e₂.mailboxId = email.mailboxId ∧
    e₂.gmailMessageId = email.gmailMessageId ∧
    e₂.subject = email.subject ∧
    e₂.isPinned = email.isPinned ∧
    e₂.taskStatus = email.taskStatus ∧
    e₂.isSnoozed = email.isSnoozed ∧
    e₂.snoozedUntil = email.snoozedUntil ∧
    e₂.hasEmbedding = email.hasEmbedding ∧
    e₂.deleted = email.deleted ∧
    (∀ eff ∈ effs, ∀ emailId labels isRead isStarred,
      eff = .localWrite emailId labels isRead isStarred →
        emailId = email.id ∧ labels = e₂.labels ∧
        isRead = e₂.isRead ∧ isStarred = e₂.isStarred) ∧
    (column.gmailLabelId = none → archiveFromInbox = false →
      e₂ = email ∧ effs = []) := by
  rcases hg : column.gmailLabelId with _ | lbl <;>
    cases harch : archiveFromInbox <;> cases hok : providerOk <;>
    simp_all [moveEmailToColumn] <;>
    (try obtain ⟨rfl, rfl⟩ := hrun) <;> simp_all

/-- C10 witness: moving M1 to the label-less "Done" column without archiving
is a complete no-op — no provider call, no local write, message unchanged. -/
theorem moveEmailToColumn_frame_witness :
    moveEmailToColumn scenarioM1 scenarioDoneColumn false true =
        (.ok scenarioM1, []) ∧
    scenarioM1.subject = scenarioM1.subject ∧
    (scenarioDoneColumn.gmailLabelId = none → false = false →
      scenarioM1 = scenarioM1 ∧ ([] : List MoveEffect) = []) :=
  ⟨rfl, rfl,
    fun h1 h2 =>
      (moveEmailToColumn_frame scenarioM1 scenarioDoneColumn false true scenarioM1 []
        rfl).2.2.2.2.2.2.2.2.2.2.2 h1 h2⟩

theorem updateMailboxUnreadCount_counters (base : StoreState) (mid : Nat) :
    (∀ m ∈ (updateMailboxUnreadCount base mid).mailboxes, m.id = mid →
        m.unreadCount = countUnread (updateMailboxUnreadCount base mid).emails mid) ∧
    ∀ m₂ ∈ (updateMailboxUnreadCount base mid).mailboxes,
      ∃ m ∈ base.mailboxes, m₂.id = m.id ∧ m₂.totalEmails = m.totalEmails := by
  constructor
  · intro m₂ hmem hid
    simp only [updateMailboxUnreadCount, List.mem_map] at hmem
    obtain ⟨m, hm, rfl⟩ := hmem
    by_cases h : m.id = mid <;> simp_all [updateMailboxUnreadCount]
  · intro m₂ hmem
    simp only [updateMailboxUnreadCount, List.mem_map] at hmem
    obtain ⟨m, hm, rfl⟩ := hmem
    refine ⟨m, hm, ?_, ?_⟩ <;> by_cases h : m.id = mid <;> simp [h]

/-- C5 counterexample: soft-deleting the unread email of a two-email mailbox
recomputes `unreadCount` (now 0) but leaves `totalEmails` at its old value 2,
while the count of non-deleted rows is 1 — refuting the claim that both
counters equal their respective counts after any soft delete. -/
theorem softDelete_totalEmails_left_stale :
    softDeleteEmail c5State 7 1 = .ok c5After ∧
    c5After.mailboxes.map MailboxRec.unreadCount = [0] ∧
    countUnread c5After.emails 1 = 0 ∧
    c5After.mailboxes.map MailboxRec.totalEmails = [2] ∧
    countNonDeleted c5After.emails 1 = 1 ∧
    (2 : Nat) ≠ 1 :=
  ⟨rfl, by decide, by decide, by decide, by decide, by decide⟩

/-- C5 amended: after a soft delete (and after an `isRead` mutation through
the message-update operation), the owning mailbox's `unreadCount` equals the
count of its non-deleted unread rows — recomputed by counting, never by
delta — but `totalEmails` is left untouched by these service operations (it
is recomputed only by the sync engine's counter update). -/
theorem counters_recomputed_by_counting_unread_only
    (st : StoreState) (userId emailId : Nat) (e : EmailRec) (st₂ : StoreState)
    (hfind : findOneOwned st userId emailId = some e)
    (hdel : softDeleteEmail st userId emailId = .ok st₂) :
    ((∀ m ∈ st₂.mailboxes, m.id = e.mailboxId →
        m.unreadCount = countUnread st₂.emails e.mailboxId) ∧
      ∀ m₂ ∈ st₂.mailboxes,
        ∃ m ∈ st.mailboxes, m₂.id = m.id ∧ m₂.totalEmails = m.totalEmails) ∧
    ∀ (dto : UpdateEmailDto) (st₃ : StoreState), dto.isRead.isSome = true →
      updateEmail st userId emailId dto = .ok st₃ →
      (∀ m ∈ st₃.mailboxes, m.id = e.mailboxId →
          m.unreadCount = countUnread st₃.emails e.mailboxId) ∧
      ∀ m₂ ∈ st₃.mailboxes,
        ∃ m ∈ st.mailboxes, m₂.id = m.id ∧ m₂.totalEmails = m.totalEmails := by
  constructor
  · simp only [softDeleteEmail, hfind, Except.ok.injEq] at hdel
    subst hdel
    exact updateMailboxUnreadCount_counters _ e.mailboxId
  · intro dto st₃ hread hupd
    simp only [updateEmail, hfind, hread, if_pos, Except.ok.injEq] at hupd
    subst hupd
    exact updateMailboxUnreadCount_counters _ e.mailboxId

/-- C5 witness: the amended statement instantiated on the concrete two-email
store. -/
theorem counters_recomputed_by_counting_unread_only_witness :
    ((∀ m ∈ c5After.mailboxes, m.id = c5Email1.mailboxId →
        m.unreadCount = countUnread c5After.emails c5Email1.mailboxId) ∧
      ∀ m₂ ∈ c5After.mailboxes,
        ∃ m ∈ c5State.mailboxes, m₂.id = m.id ∧ m₂.totalEmails = m.totalEmails) ∧
    ∀ (dto : UpdateEmailDto) (st₃ : StoreState), dto.isRead.isSome = true →
      updateEmail c5State 7 1 dto = .ok st₃ →
      (∀ m ∈ st₃.mailboxes, m.id = c5Email1.mailboxId →
          m.unreadCount = countUnread st₃.emails c5Email1.mailboxId) ∧
      ∀ m₂ ∈ st₃.mailboxes,
        ∃ m ∈ c5State.mailboxes, m₂.id = m.id ∧ m₂.totalEmails = m.totalEmails :=
  counters_recomputed_by_counting_unread_only c5State 7 1 c5Email1 c5After rfl rfl

theorem applyUpdateDto_id (e : EmailRec) (dto : UpdateEmailDto) :
    (applyUpdateDto e dto).id = e.id := by
  unfold applyUpdateDto
  rcases dto.isRead with _ | b1 <;> rcases dto.isStarred with _ | b2 <;>
    rcases dto.isPinned with _ | b3 <;> rcases dto.taskStatus with _ | t4 <;>
    rcases dto.snoozedUntil with _ | _ | t5 <;> rfl

theorem applyUpdateDto_snooze (e : EmailRec) (dto : UpdateEmailDto) (v : Option Nat)
    (hdto : dto.snoozedUntil = some v) :
    (applyUpdateDto e dto).isSnoozed = v.isSome ∧
      (applyUpdateDto e dto).snoozedUntil = v := by
  unfold applyUpdateDto
  rw [hdto]
  rcases v with _ | t <;> exact ⟨rfl, rfl⟩

/-- C6 counterexample: PATCHing `snoozedUntil` to the past instant 50 yields
`isSnoozed = true` with `snoozedUntil = 50`; at the moment of the update
(say, now = 100) the claimed equivalence "isSnoozed iff snoozedUntil in the
future" is violated — the code never compares the value with the clock. -/
theorem snooze_flag_ignores_clock :
    updateEmail c5State 7 1 c6Dto = .ok c6After ∧
    (∃ e ∈ c6After.emails,
      e.id = 1 ∧ e.isSnoozed = true ∧ e.snoozedUntil = some 50 ∧
        snoozeFlagMatchesClock e 100 = false) :=
  ⟨rfl, by decide⟩

/-- C6 amended: after a message update whose body carries `snoozedUntil`, the
row has `isSnoozed` true exactly when the supplied value was non-null (no
clock comparison), and the supplied value (or null) is stored; a null value
clears both fields. -/
theorem update_snooze_from_null_check_only
    (st : StoreState) (userId emailId : Nat) (dto : UpdateEmailDto)
    (v : Option Nat) (st₂ : StoreState)
    (hdto : dto.snoozedUntil = some v)
    (hrun : updateEmail st userId emailId dto = .ok st₂) :
    ∃ e₂ ∈ st₂.emails,
      e₂.id = emailId ∧ e₂.isSnoozed = v.isSome ∧ e₂.snoozedUntil = v := by
  rcases hfind : findOneOwned st userId emailId with _ | e
  · simp [updateEmail, hfind] at hrun
  · have hid : e.id = emailId := by
      unfold findOneOwned at hfind
      rcases hf2 : st.emails.find? (fun x => x.id == emailId && !x.deleted)
        with _ | e'
      · simp [hf2] at hfind
      · have hp := List.find?_some hf2
        simp only [Bool.and_eq_true, beq_iff_eq] at hp
        simp only [hf2] at hfind
        by_cases hown : (getUserMailboxIds st userId).contains e'.mailboxId
        · rw [if_pos hown, Option.some.injEq] at hfind
          subst hfind
          exact hp.1
        · rw [if_neg hown] at hfind
          exact Option.noConfusion hfind
    have hmem : e ∈ st.emails := by
      unfold findOneOwned at hfind
      rcases hf2 : st.emails.find? (fun x => x.id == emailId && !x.deleted)
        with _ | e'
      · simp [hf2] at hfind
      · simp only [hf2] at hfind
        by_cases hown : (getUserMailboxIds st userId).contains e'.mailboxId
        · rw [if_pos hown, Option.some.injEq] at hfind
          subst hfind
          exact List.mem_of_find?_eq_some hf2
        · rw [if_neg hown] at hfind
          exact Option.noConfusion hfind
    simp only [updateEmail, hfind, Except.ok.injEq] at hrun
    subst hrun
    refine ⟨applyUpdateDto e dto, ?_, ?_, ?_, ?_⟩
    · by_cases hread : dto.isRead.isSome <;>
        · simp only [hread, if_pos, if_neg, Bool.false_eq_true, ite_false, ite_true,
            updateMailboxUnreadCount]
          exact List.mem_map.mpr ⟨e, hmem, by simp [hid]⟩
    · rw [applyUpdateDto_id, hid]
    · exact (applyUpdateDto_snooze e dto v hdto).1
    · exact (applyUpdateDto_snooze e dto v hdto).2

/-- C6 witness: the amended statement on the concrete store, snoozing email 1
until instant 50. -/
theorem update_snooze_from_null_check_only_witness :
    ∃ e₂ ∈ c6After.emails,
      e₂.id = 1 ∧ e₂.isSnoozed = (some (50 : Nat)).isSome ∧
        e₂.snoozedUntil = some 50 :=
  update_snooze_from_null_check_only c5State 7 1 c6Dto (some 50) c6After rfl rfl

/-- C8 counterexample: on two equal-relevance rows the query's ORDER BY
admits the output [id 2, id 1], which violates the claimed id-ascending
tiebreak, while [id 1, id 2] is equally admissible — so the order is neither
tie-broken by id nor deterministic. -/
theorem fuzzy_order_tie_violates_claim :
    fuzzyOrderAdmissible [tieRowA, tieRowB] [tieRowB, tieRowA] ∧
    ¬ specOrderedWithIdTiebreak [tieRowB, tieRowA] ∧
    fuzzyOrderAdmissible [tieRowA, tieRowB] [tieRowA, tieRowB] ∧
    [tieRowB, tieRowA] ≠ [tieRowA, tieRowB] := by
  refine ⟨⟨?_, ?_⟩, ?_, ⟨?_, ?_⟩, ?_⟩
  · exact List.Perm.swap tieRowB tieRowA []
  · simp [relevanceSortedDesc, tieRowA, tieRowB]
  · simp [specOrderedWithIdTiebreak, tieRowA, tieRowB]
  · exact List.Perm.refl _
  · simp [relevanceSortedDesc, tieRowA, tieRowB]
  · simp [tieRowA, tieRowB]

/-- C8 amended: every output admitted by the query is sorted by the combined
relevance score descending and is a permutation of the qualifying rows, but
the query names no tiebreak, so row sets with equal scores admit more than
one output order — the result order is not deterministic. -/
theorem fuzzy_order_relevance_desc_only :
    (∀ rows out, fuzzyOrderAdmissible rows out →
      relevanceSortedDesc out ∧ out.Perm rows) ∧
    ∃ rows o₁ o₂, fuzzyOrderAdmissible rows o₁ ∧ fuzzyOrderAdmissible rows o₂ ∧
      o₁ ≠ o₂ := by
  constructor
  · exact fun rows out h => ⟨h.2, h.1.symm⟩
  · refine ⟨[tieRowA, tieRowB], [tieRowA, tieRowB], [tieRowB, tieRowA],
      ⟨List.Perm.refl _, ?_⟩, ⟨List.Perm.swap tieRowB tieRowA [], ?_⟩, ?_⟩ <;>
      simp [relevanceSortedDesc, tieRowA, tieRowB]

/-- C8 witness: the amended theorem applied to a concrete admissible output. -/
theorem fuzzy_order_relevance_desc_only_witness :
    relevanceSortedDesc [tieRowB, tieRowA] ∧
      List.Perm [tieRowB, tieRowA] [tieRowA, tieRowB] :=
  fuzzy_order_relevance_desc_only.1 [tieRowA, tieRowB] [tieRowB, tieRowA]
    ⟨List.Perm.swap tieRowB tieRowA [], by simp [relevanceSortedDesc, tieRowA, tieRowB]⟩

/-- C9: every row returned by fuzzy or semantic search belongs to a
non-deleted mailbox owned by the requesting user — the base predicate always
restricts rows to the caller's mailbox ids — and a fuzzy mailbox filter the
caller does not own is silently ignored (the query is built as if no filter
were supplied). -/
theorem search_rows_owned_by_caller
    (st : StoreState) (userId : Nat) (q : String) (mbFilter : Option Nat)
    (matchCond simCond : EmailRec → Bool) (e : EmailRec)
    (hmem : e ∈ fuzzySearchRows st userId q mbFilter matchCond ∨
            e ∈ semanticSearchRows st userId q mbFilter simCond) :
    (∃ m ∈ st.mailboxes, m.id = e.mailboxId ∧ m.userId = userId ∧ m.deleted = false) ∧
    ∀ m : Nat, ¬ (getUserMailboxIds st userId).contains m = true →
      fuzzySearchRows st userId q (some m) matchCond =
        fuzzySearchRows st userId q none matchCond := by
  constructor
  · have hbase : (getUserMailboxIds st userId).contains e.mailboxId = true := by
      rcases hmem with h | h <;>
        · first
          | unfold fuzzySearchRows at h
          | unfold semanticSearchRows at h
          by_cases hempty :
              ((getUserMailboxIds st userId).isEmpty || isBlankQuery q) = true
          · rw [if_pos hempty] at h
            exact absurd h (List.not_mem_nil e)
          · rw [if_neg hempty] at h
            have hp := List.of_mem_filter h
            simp only [fuzzyWherePredicate, semanticWherePredicate,
              Bool.and_eq_true] at hp
            first
            | exact hp.1.1.1
            | exact hp.1.1.1.1
    have hmm : e.mailboxId ∈ getUserMailboxIds st userId := by
      simpa using hbase
    unfold getUserMailboxIds at hmm
    rcases List.mem_map.mp hmm with ⟨m, hmf, hmid⟩
    have hmcond := List.of_mem_filter hmf
    simp only [Bool.and_eq_true, beq_iff_eq, Bool.not_eq_eq_eq_not,
      Bool.not_true, Bool.not_eq_true] at hmcond
    exact ⟨m, List.mem_of_mem_filter hmf, hmid, hmcond.1, hmcond.2⟩
  · intro m hunowned
    unfold fuzzySearchRows
    by_cases hempty :
        ((getUserMailboxIds st userId).isEmpty || isBlankQuery q) = true
    · rw [if_pos hempty, if_pos hempty]
    · rw [if_neg hempty, if_neg hempty]
      apply List.filter_congr
      intro x _
      simp only [fuzzyWherePredicate]
      rw [if_neg hunowned]

/-- C9 witness: a one-mailbox store where the matching email is returned and
an unowned mailbox filter (id 99) is ignored. -/
theorem search_rows_owned_by_caller_witness :
    (∃ m ∈ c5State.mailboxes,
      m.id = c5Email1.mailboxId ∧ m.userId = 7 ∧ m.deleted = false) ∧
    ∀ m : Nat, ¬ (getUserMailboxIds c5State 7).contains m = true →
      fuzzySearchRows c5State 7 "invoice" (some m) (fun _ => true) =
        fuzzySearchRows c5State 7 "invoice" none (fun _ => true) :=
  search_rows_owned_by_caller c5State 7 "invoice" none (fun _ => true)
    (fun _ => true) c5Email1 (Or.inl (by decide))

/-- C3 counterexample: after a first transient failure (retry scheduled 60 s
out) the retry tick fires at t = 60000, deletes the queue entry, and re-runs
the sync; when that re-run fails the new entry has attempt counter 0 and a
60000 ms delay again — not counter 1 with the claimed 300 s backoff. The
escalating schedule and the 3-attempt cap are unreachable through retries
driven by the retry queue. -/
theorem retry_tick_resets_attempt_counter :
    queueGet c3RunA1.retryQueue 1 =
      some { mailboxId := 1, retryCount := 0, lastError := "fail",
             scheduledAt := 60000 } ∧
    queueGet c3RunB2.retryQueue 1 =
      some { mailboxId := 1, retryCount := 0, lastError := "fail",
             scheduledAt := 120000 } ∧
    (120000 : Nat) - 60000 = 60000 ∧ (60000 : Nat) ≠ 300000 :=
  ⟨rfl, rfl, rfl, by decide⟩

/-- C3 amended: `handleSyncError` schedules retries with delays 60 s, 300 s,
900 s and exhausts after three scheduled attempts — but only while the queue
entry survives between failures (as with failures driven by the 30-second
scheduled tick): the fourth such failure marks the mailbox Error with the
"(max retries exceeded)" suffix and drops the entry. A retry driven by the
retry-queue tick deletes the entry before re-running the sync, so a failure
during that re-run restarts the attempt counter at 0 with a 60 s delay, and
attempts are never exhausted through retry-tick-driven failures alone. -/
theorem retry_backoff_and_exhaustion :
    queueGet c3RunA1.retryQueue 1 =
      some { mailboxId := 1, retryCount := 0, lastError := "fail",
             scheduledAt := 0 + 60000 } ∧
    queueGet c3RunA2.retryQueue 1 =
      some { mailboxId := 1, retryCount := 1, lastError := "fail",
             scheduledAt := 30000 + 300000 } ∧
    queueGet c3RunA3.retryQueue 1 =
      some { mailboxId := 1, retryCount := 2, lastError := "fail",
             scheduledAt := 60000 + 900000 } ∧
    (findMailbox c3RunA3 1).map MailboxSync.lastSyncError =
      some (some "fail (retry 3/3 scheduled)") ∧
    c3RunA4.retryQueue = [] ∧
    (findMailbox c3RunA4 1).map MailboxSync.syncStatus = some .error ∧
    (findMailbox c3RunA4 1).map MailboxSync.lastSyncError =
      some (some "fail (max retries exceeded)") ∧
    queueGet c3RunB2.retryQueue 1 =
      some { mailboxId := 1, retryCount := 0, lastError := "fail",
             scheduledAt := 60000 + 60000 } ∧
    (findMailbox c3RunB2 1).map MailboxSync.lastSyncError =
      some (some "fail (retry 1/3 scheduled)") :=
  ⟨rfl, rfl, rfl, rfl, rfl, rfl, rfl, rfl, rfl⟩

/-- C4 counterexample: with the engine guard `isSyncing` set, both
`incrementalSync` and `syncOnDemand` still perform a sync on mailbox 1 — its
cursor advances and `updatedAt` changes — refuting the claim that every sync
entry point consults the guard and returns without syncing when it is set. -/
theorem guard_not_consulted_by_sync_entries :
    c4Guarded.isSyncing = true ∧
    incrementalSyncStep c4Guarded 1 (.success "H2") 100 = .ok c4IncResult ∧
    (findMailbox c4IncResult 1).map MailboxSync.historyId = some (some "H2") ∧
    (findMailbox c4IncResult 1).map MailboxSync.updatedAt = some 100 ∧
    c4IncResult ≠ c4Guarded ∧
    syncOnDemandStep c4Guarded 1 (.success "H4") 100 = .ok c4DemandResult ∧
    (findMailbox c4DemandResult 1).map MailboxSync.historyId = some (some "H4") ∧
    c4DemandResult ≠ c4Guarded :=
  ⟨rfl, rfl, rfl, rfl, by decide, rfl, rfl, by decide⟩

/-- C4 amended: only the scheduled incremental tick consults the `isSyncing`
guard (skipping, not queueing, when it is set); `syncOnDemand` skips only when
the target mailbox's own `syncStatus` is Syncing; `incrementalSync` and
`fullSync` set the guard but never check it first and proceed even when it is
already set. -/
theorem only_scheduled_tick_consults_guard :
    (∀ (s : EngineState) (now : Nat) (f : Nat → SyncOutcome),
      s.isSyncing = true → scheduledIncrementalSyncStep s now f = s) ∧
    (∀ (s : EngineState) (mid : Nat) (o : SyncOutcome) (now : Nat)
        (mb : MailboxSync),
      findMailbox s mid = some mb → mb.syncStatus = .syncing →
        syncOnDemandStep s mid o now = .ok s) ∧
    ((findMailbox c4IncResult 1).map MailboxSync.syncStatus = some .synced ∧
      (findMailbox c4FullResult 1).map MailboxSync.syncStatus = some .synced ∧
      c4Guarded.isSyncing = true) := by
  refine ⟨?_, ?_, rfl, rfl, rfl⟩
  · intro s now f h
    unfold scheduledIncrementalSyncStep
    rw [h]
    simp
  · intro s mid o now mb hf hs
    unfold syncOnDemandStep
    rw [hf]
    simp [hs]

/-- C4 witness: the amended theorem applied to the guarded engine state. -/
theorem only_scheduled_tick_consults_guard_witness :
    scheduledIncrementalSyncStep c4Guarded 0 (fun _ => SyncOutcome.failure "fail") =
      c4Guarded :=
  only_scheduled_tick_consults_guard.1 c4Guarded 0
    (fun _ => SyncOutcome.failure "fail") rfl


theorem hShift_injective (old new : Nat) : Function.Injective (hShift old new) := by
  intro a b hab
  unfold hShift at hab
  split_ifs at hab <;> omega

theorem hShift_lt (old new len : Nat) (h1 : old < len) (h2 : new < len) :
    ∀ i, i < len → hShift old new i < len := by
  intro i hi
  unfold hShift
  split_ifs <;> omega

theorem hShift_inv (old new k : Nat) : hShift old new (hShift new old k) = k := by
  unfold hShift
  split_ifs <;> omega

theorem hShift_lt_of_lt (old new len k : Nat) (h1 : old < len) (h2 : new < len)
    (hk : k < len) : hShift new old k < len := by
  unfold hShift
  split_ifs <;> omega

theorem map_hShift_range_perm (old new len : Nat) (h1 : old < len) (h2 : new < len) :
    ((List.range len).map (hShift old new)).Perm (List.range len) := by
  apply List.perm_of_nodup_nodup_toFinset_eq
  · exact (List.nodup_range len).map (hShift_injective old new)
  · exact List.nodup_range len
  · ext k
    simp only [List.mem_toFinset, List.mem_map, List.mem_range]
    constructor
    · rintro ⟨i, hi, rfl⟩
      exact hShift_lt old new len h1 h2 i hi
    · intro hk
      exact ⟨hShift new old k, hShift_lt_of_lt old new len k h1 h2 hk,
        hShift_inv old new k⟩

theorem foldl_max_perm : ∀ {l₁ l₂ : List Nat}, l₁.Perm l₂ →
    ∀ a : Nat, l₁.foldl Nat.max a = l₂.foldl Nat.max a := by
  intro l₁ l₂ h
  induction h with
  | nil => intro a; rfl
  | cons x _ ih => intro a; simp only [List.foldl_cons]; exact ih _
  | swap x y l =>
    intro a
    simp only [List.foldl_cons]
    have h : (a.max y).max x = (a.max x).max y := by
      simp only [Nat.max_def]
      split_ifs <;> omega
    rw [h]
  | trans _ _ ih₁ ih₂ => intro a; rw [ih₁, ih₂]

theorem foldl_max_range : ∀ n : Nat, (List.range n).foldl Nat.max 0 = n - 1 := by
  intro n
  induction n with
  | zero => rfl
  | succ k ih =>
    rw [List.range_succ, List.foldl_append, ih]
    simp only [List.foldl_cons, List.foldl_nil]
    simp only [Nat.max_def]
    split_ifs <;> omega

theorem denseIndices_nodup {s : List ColumnRec} (h : denseIndices s) :
    (s.map ColumnRec.orderIndex).Nodup :=
  h.nodup_iff.mpr (List.nodup_range _)

theorem denseIndices_mem_lt {s : List ColumnRec} (h : denseIndices s)
    {c : ColumnRec} (hc : c ∈ s) : c.orderIndex < s.length := by
  have hm : c.orderIndex ∈ s.map ColumnRec.orderIndex :=
    List.mem_map_of_mem ColumnRec.orderIndex hc
  have := h.mem_iff.mp hm
  simpa [List.mem_range] using this

theorem reassignIndices_orderIndex (l : List ColumnRec) :
    (reassignIndices l).map ColumnRec.orderIndex = List.range l.length := by
  unfold reassignIndices
  rw [List.map_map]
  have hcomp :
      (ColumnRec.orderIndex ∘ fun p : Nat × ColumnRec =>
        { p.2 with orderIndex := p.1 }) = Prod.fst := by
    funext p
    rfl
  rw [hcomp, List.enum_map_fst]

theorem reassignIndices_length (l : List ColumnRec) :
    (reassignIndices l).length = l.length := by
  simp [reassignIndices]

theorem reassignIndices_dense (l : List ColumnRec) :
    denseIndices (reassignIndices l) := by
  unfold denseIndices
  rw [reassignIndices_orderIndex, reassignIndices_length]

theorem reassignIndices_ids (l : List ColumnRec) :
    (reassignIndices l).map ColumnRec.id = l.map ColumnRec.id := by
  unfold reassignIndices
  rw [List.map_map]
  have hcomp :
      (ColumnRec.id ∘ fun p : Nat × ColumnRec => { p.2 with orderIndex := p.1 }) =
        (ColumnRec.id ∘ Prod.snd) := by
    funext p
    rfl
  rw [hcomp, ← List.map_map, List.enum_map_snd]

theorem reorderColumns_ids (cols : List ColumnRec) (oldIndex newIndex : Nat) :
    (reorderColumns cols oldIndex newIndex).map ColumnRec.id =
      cols.map ColumnRec.id := by
  unfold reorderColumns
  split_ifs
  · rfl
  · rw [List.map_map]
    apply List.map_congr_left
    intro c _
    by_cases h : oldIndex < c.orderIndex ∧ c.orderIndex ≤ newIndex <;> simp [h]
  · rw [List.map_map]
    apply List.map_congr_left
    intro c _
    by_cases h : newIndex ≤ c.orderIndex ∧ c.orderIndex < oldIndex <;> simp [h]

theorem findColumnById_mem {cols : List ColumnRec} {cid : Nat} {col : ColumnRec}
    (h : findColumnById cols cid = some col) : col ∈ cols ∧ col.id = cid := by
  refine ⟨List.mem_of_find?_eq_some h, ?_⟩
  have := List.find?_some h
  simpa using this



theorem replace_ids (l : List ColumnRec) (cid : Nat) (col₂ : ColumnRec)
    (hid₂ : col₂.id = cid) :
    (l.map (fun c => if c.id == cid then col₂ else c)).map ColumnRec.id =
      l.map ColumnRec.id := by
  rw [List.map_map]
  apply List.map_congr_left
  intro c hc
  by_cases h : c.id = cid <;> simp [Function.comp, h, hid₂]

theorem replace_orderIndex_same (s : List ColumnRec) (cid : Nat)
    (col col₂ : ColumnRec) (hids : (s.map ColumnRec.id).Nodup)
    (hcol_mem : col ∈ s) (hcol_id : col.id = cid)
    (hidx₂ : col₂.orderIndex = col.orderIndex) :
    (s.map (fun c => if c.id == cid then col₂ else c)).map ColumnRec.orderIndex =
      s.map ColumnRec.orderIndex := by
  rw [List.map_map]
  apply List.map_congr_left
  intro c hc
  by_cases h : c.id = cid
  · have hceq : c = col :=
      List.inj_on_of_nodup_map hids hc hcol_mem (by rw [h, hcol_id])
    subst hceq
    simp [Function.comp, h, hidx₂]
  · simp [Function.comp, h]

theorem colsWF_seed (s : List ColumnRec) (userId baseId : Nat) (h : ColsWF s) :
    ColsWF (initializeDefaultColumns s userId baseId) := by
  unfold initializeDefaultColumns
  by_cases hlen : s.length > 0
  · rw [if_pos hlen]
    exact h
  · rw [if_neg hlen]
    constructor
    · unfold denseIndices defaultColumnSeed
      simp only [List.map_cons, List.map_nil, List.length_cons, List.length_nil]
      decide
    · unfold defaultColumnSeed
      simp

theorem append_one_dense {s : List ColumnRec} (hdense : denseIndices s)
    (c : ColumnRec) (hc : c.orderIndex = s.length) : denseIndices (s ++ [c]) := by
  unfold denseIndices at hdense ⊢
  rw [List.map_append, List.length_append]
  simp only [List.map_cons, List.map_nil, List.length_cons, List.length_nil,
    Nat.zero_add, hc]
  rw [List.range_succ]
  exact hdense.append_right _

theorem append_one_ids_nodup {s : List ColumnRec}
    (hids : (s.map ColumnRec.id).Nodup) (c : ColumnRec)
    (hfresh : ∀ x ∈ s, x.id ≠ c.id) : ((s ++ [c]).map ColumnRec.id).Nodup := by
  rw [List.map_append, List.nodup_append]
  refine ⟨hids, by simp, ?_⟩
  intro a ha hb
  simp only [List.map_cons, List.map_nil, List.mem_singleton] at hb
  subst hb
  rcases List.mem_map.mp ha with ⟨x, hx, hxid⟩
  exact hfresh x hx hxid

theorem colsWF_createAuto (s : List ColumnRec) (userId : Nat)
    (dto : CreateColumnDto) (newId : Nat) (s₂ : List ColumnRec) (h : ColsWF s)
    (hnone : dto.orderIndex = none) (hfresh : ∀ c ∈ s, c.id ≠ newId)
    (hok : createColumn s userId dto newId = .ok s₂) : ColsWF s₂ := by
  obtain ⟨hdense, hids⟩ := h
  unfold createColumn at hok
  by_cases hconf : (s.any (fun c => c.title == dto.title)) = true
  · rw [if_pos hconf] at hok
    exact absurd hok (by simp)
  · rw [if_neg hconf] at hok
    rw [hnone] at hok
    rcases s with _ | ⟨c0, srest⟩
    · simp only [Except.ok.injEq] at hok
      subst hok
      exact ⟨append_one_dense hdense _ rfl,
        append_one_ids_nodup hids _ (fun x hx => absurd hx (List.not_mem_nil x))⟩
    · simp only [Except.ok.injEq] at hok
      subst hok
      have hmax : (((c0 :: srest).map ColumnRec.orderIndex).foldl Nat.max 0) =
          (c0 :: srest).length - 1 := by
        rw [foldl_max_perm hdense 0, foldl_max_range]
      refine ⟨append_one_dense hdense _ ?_, append_one_ids_nodup hids _ ?_⟩
      · show ((c0 :: srest).map ColumnRec.orderIndex).foldl Nat.max 0 + 1 =
          (c0 :: srest).length
        rw [hmax]
        simp
      · intro x hx
        exact hfresh x hx



theorem replace_dense (s : List ColumnRec) (cid : Nat) (col col₂ : ColumnRec)
    (hdense : denseIndices s) (hids : (s.map ColumnRec.id).Nodup)
    (hcol_mem : col ∈ s) (hcol_id : col.id = cid)
    (hidx₂ : col₂.orderIndex = col.orderIndex) :
    denseIndices (s.map (fun c => if c.id == cid then col₂ else c)) := by
  unfold denseIndices
  rw [replace_orderIndex_same s cid col col₂ hids hcol_mem hcol_id hidx₂]
  simpa using hdense

theorem replace_nodup (s : List ColumnRec) (cid : Nat) (col₂ : ColumnRec)
    (hids : (s.map ColumnRec.id).Nodup) (hid₂ : col₂.id = cid) :
    ((s.map (fun c => if c.id == cid then col₂ else c)).map ColumnRec.id).Nodup := by
  rw [replace_ids s cid col₂ hid₂]
  exact hids

theorem reorder_replace_dense (s : List ColumnRec) (cid n : Nat)
    (col col₂ : ColumnRec) (hdense : denseIndices s)
    (hids : (s.map ColumnRec.id).Nodup) (hcol_mem : col ∈ s)
    (hcol_id : col.id = cid) (hneq : n ≠ col.orderIndex) (hn : n < s.length)
    (hidx₂ : col₂.orderIndex = n) :
    denseIndices ((reorderColumns s col.orderIndex n).map
      (fun c => if c.id == cid then col₂ else c)) := by
  have hold : col.orderIndex < s.length := denseIndices_mem_lt hdense hcol_mem
  have hkey : ((reorderColumns s col.orderIndex n).map
      (fun c => if c.id == cid then col₂ else c)).map ColumnRec.orderIndex =
      (s.map ColumnRec.orderIndex).map (hShift col.orderIndex n) := by
    unfold reorderColumns
    rw [if_neg (Ne.symm hneq)]
    have hstep : ∀ (g : ColumnRec → ColumnRec),
        (∀ c ∈ s, (g c).id = c.id) →
        (∀ c ∈ s, c.orderIndex ≠ col.orderIndex →
          (g c).orderIndex = hShift col.orderIndex n c.orderIndex) →
        (g col = col) →
        ((s.map g).map (fun c => if c.id == cid then col₂ else c)).map
            ColumnRec.orderIndex =
          (s.map ColumnRec.orderIndex).map (hShift col.orderIndex n) := by
      intro g hgid hgidx hgcol
      rw [List.map_map, List.map_map, List.map_map]
      apply List.map_congr_left
      intro c hc
      simp only [Function.comp]
      by_cases hcidc : c.id = cid
      · have hceq : c = col :=
          List.inj_on_of_nodup_map hids hc hcol_mem (by rw [hcidc, hcol_id])
        subst hceq
        rw [hgcol]
        rw [if_pos (by simp [hcol_id])]
        rw [hidx₂]
        unfold hShift
        rw [if_pos rfl]
      · have hcidx : c.orderIndex ≠ col.orderIndex := by
          intro heq
          have hceq : c = col :=
            List.inj_on_of_nodup_map (denseIndices_nodup hdense) hc hcol_mem heq
          exact hcidc (by rw [hceq, hcol_id])
        rw [if_neg (by simp [hgid c hc, hcidc])]
        exact hgidx c hc hcidx
    by_cases hgt : n > col.orderIndex
    · rw [if_pos hgt]
      apply hstep
      · intro c _
        by_cases hin : col.orderIndex < c.orderIndex ∧ c.orderIndex ≤ n <;>
          simp [hin]
      · intro c _ hcidx
        by_cases hin : col.orderIndex < c.orderIndex ∧ c.orderIndex ≤ n
        · rw [if_pos hin]
          unfold hShift
          rw [if_neg hcidx, if_pos hin]
        · rw [if_neg hin]
          unfold hShift
          rw [if_neg hcidx, if_neg hin, if_neg (by omega)]
      · rw [if_neg (by omega)]
    · rw [if_neg hgt]
      apply hstep
      · intro c _
        by_cases hin : n ≤ c.orderIndex ∧ c.orderIndex < col.orderIndex <;>
          simp [hin]
      · intro c _ hcidx
        by_cases hin : n ≤ c.orderIndex ∧ c.orderIndex < col.orderIndex
        · rw [if_pos hin]
          unfold hShift
          rw [if_neg hcidx, if_neg (by omega), if_pos hin]
        · rw [if_neg hin]
          unfold hShift
          rw [if_neg hcidx, if_neg (by omega), if_neg hin]
      · rw [if_neg (by omega)]
  unfold denseIndices
  rw [hkey]
  have hlen : ((reorderColumns s col.orderIndex n).map
      (fun c => if c.id == cid then col₂ else c)).length = s.length := by
    unfold reorderColumns
    split_ifs <;> simp
  rw [hlen]
  exact (hdense.map _).trans (map_hShift_range_perm col.orderIndex n s.length hold hn)



theorem colsWF_update (s : List ColumnRec) (cid : Nat) (dto : UpdateColumnDto)
    (s₂ : List ColumnRec) (h : ColsWF s)
    (hrange : ∀ n, dto.orderIndex = some n → n < s.length)
    (hok : updateColumn s cid dto = .ok s₂) : ColsWF s₂ := by
  obtain ⟨hdense, hids⟩ := h
  rcases hfind : findColumnById s cid with _ | col
  · simp only [updateColumn, hfind] at hok
    exact absurd hok (by simp)
  · obtain ⟨hcol_mem, hcol_id⟩ := findColumnById_mem hfind
    simp only [updateColumn, hfind] at hok
    by_cases hconf : titleConflict s col dto = true
    · rw [if_pos hconf] at hok
      exact absurd hok (by simp)
    · rw [if_neg hconf] at hok
      rcases hdto : dto.orderIndex with _ | n
      · simp only [hdto, Option.getD_none] at hok
        rw [Except.ok.injEq] at hok
        subst hok
        exact ⟨replace_dense s cid col _ hdense hids hcol_mem hcol_id rfl,
          replace_nodup s cid _ hids hcol_id⟩
      · simp only [hdto, Option.getD_some] at hok
        by_cases hneq : n ≠ col.orderIndex
        · rw [if_pos hneq] at hok
          rw [Except.ok.injEq] at hok
          subst hok
          refine ⟨reorder_replace_dense s cid n col _ hdense hids hcol_mem
            hcol_id hneq (hrange n hdto) rfl, ?_⟩
          have hrids := reorderColumns_ids s col.orderIndex n
          apply replace_nodup
          · rw [hrids]
            exact hids
          · exact hcol_id
        · rw [if_neg hneq] at hok
          rw [Except.ok.injEq] at hok
          subst hok
          push_neg at hneq
          exact ⟨replace_dense s cid col _ hdense hids hcol_mem hcol_id hneq,
            replace_nodup s cid _ hids hcol_id⟩

theorem colsWF_delete (s : List ColumnRec) (cid : Nat) (s₂ : List ColumnRec)
    (h : ColsWF s) (hok : deleteColumn s cid = .ok s₂) : ColsWF s₂ := by
  obtain ⟨_, hids⟩ := h
  rcases hfind : findColumnById s cid with _ | col
  · simp only [deleteColumn, hfind] at hok
    exact absurd hok (by simp)
  · simp only [deleteColumn, hfind] at hok
    by_cases hdef : col.isDefault = true
    · rw [if_pos hdef] at hok
      exact absurd hok (by simp)
    · rw [if_neg hdef] at hok
      rw [Except.ok.injEq] at hok
      subst hok
      refine ⟨reassignIndices_dense _, ?_⟩
      rw [reassignIndices_ids]
      have hperm :
          ((sortByOrderIndex (s.filter (fun c => c.id != cid))).map
              ColumnRec.id).Perm
            ((s.filter (fun c => c.id != cid)).map ColumnRec.id) :=
        (List.mergeSort_perm _ _).map ColumnRec.id
      apply hperm.nodup_iff.mpr
      exact List.Nodup.sublist ((List.filter_sublist s).map ColumnRec.id) hids

theorem reachable_colsWF (s : List ColumnRec) (h : ReachableCols s) : ColsWF s := by
  induction h with
  | empty => exact ⟨by simp [denseIndices], by simp⟩
  | seed s uid bid _ ih => exact colsWF_seed s uid bid ih
  | createAuto s uid dto newId s₂ _ hnone hfresh hok ih =>
    exact colsWF_createAuto s uid dto newId s₂ ih hnone hfresh hok
  | update s cid dto s₂ _ hrange hok ih =>
    exact colsWF_update s cid dto s₂ ih hrange hok
  | delete s cid s₂ _ hok ih => exact colsWF_delete s cid s₂ ih hok


/-- C7 counterexample: `createColumn` honours an explicit `orderIndex`
without shifting anything, so creating a first column with `orderIndex = 5`
yields the index set {5}, not {0} — density fails in a state reachable by a
single create with an explicit index. -/
theorem create_with_explicit_index_breaks_density :
    createColumn [] 7 c7Dto5 1 = .ok c7Broken ∧
    c7Broken.map ColumnRec.orderIndex = [5] ∧
    ¬ denseIndices c7Broken :=
  ⟨rfl, rfl, by unfold denseIndices; decide⟩

/-- C7 amended: for every user, in every state reachable via default seeding,
create with `orderIndex` omitted (append at max+1, fresh id), update/reorder
whose target index is below the column count, and delete (which re-densifies),
the set of orderIndex values is exactly {0,…,N−1}; a create with an explicit
`orderIndex` (or a reorder target at or beyond the column count) can break
density. -/
theorem reachable_columns_dense (s : List ColumnRec) (h : ReachableCols s) :
    denseIndices s :=
  (reachable_colsWF s h).1

/-- C7 witness: the freshly seeded six default columns carry indices 0..5. -/
theorem reachable_columns_dense_witness :
    denseIndices (initializeDefaultColumns [] 7 100) :=
  reachable_columns_dense (initializeDefaultColumns [] 7 100)
    (ReachableCols.seed [] 7 100 ReachableCols.empty)

end Theorems

end TldrBackend
